import Mathlib

/-!
Verification of the rumor-control diffusion simulator (src/main.py).

The embedding models:
* `UndirectedGraph` — the adjacency-list graph class (class `UndirectedGraph`);
* `contagion_brd` — the synchronous best-response-dynamics diffusion engine,
  with node states `"Y"`/`"X"`/`"W"` (`Untouched`/`Spreader`/`Wise`), seed
  locking, the per-round snapshot update, and the while-loop run to fixpoint;
* `run_experiment` — the experiment harness with its strategy dispatch.

Python floats are modelled as rationals (all thresholds that occur in the
claims are exactly representable). The two calls to `random.sample` are
modelled as injected sample oracles (`sampleS`, `sampleRand`): randomness is
an input of the embedding, which is exactly how the claims quantify over it.
-/

/-- Node state: `"Y"` (Untouched), `"X"` (Spreader), `"W"` (Wise). -/
inductive St where
  | Y : St
  | X : St
  | W : St
deriving DecidableEq, Repr

/-- The adjacency-list graph of `class UndirectedGraph`. -/
structure UndirectedGraph where
  n : Nat
  adj : List (List Nat)
deriving DecidableEq, Repr

/-- Constructor: `n` nodes, each with an empty adjacency list. -/
def UndirectedGraph.mkEmpty (number_of_nodes : Nat) : UndirectedGraph :=
  ⟨number_of_nodes, List.replicate number_of_nodes []⟩

/-- Method `add_edge`: append each endpoint to the other's list unless present. -/
def UndirectedGraph.add_edge (G : UndirectedGraph) (nodeA nodeB : Nat) : UndirectedGraph :=
  let adj1 := if nodeB ∈ G.adj.getD nodeA [] then G.adj
              else G.adj.set nodeA (G.adj.getD nodeA [] ++ [nodeB])
  let adj2 := if nodeA ∈ adj1.getD nodeB [] then adj1
              else adj1.set nodeB (adj1.getD nodeB [] ++ [nodeA])
  ⟨G.n, adj2⟩

/-- Method `edges_from`: the adjacency list of a node. -/
def UndirectedGraph.edges_from (G : UndirectedGraph) (nodeA : Nat) : List Nat :=
  G.adj.getD nodeA []

/-- Method `number_of_nodes`. -/
def UndirectedGraph.number_of_nodes (G : UndirectedGraph) : Nat := G.n

/-- Initialization of `status` in `contagion_brd`: all `"Y"`, then `"X"` at the
nodes of `S`, then `"W"` at the nodes of `W_nodes` (in that order). -/
def initStatus (n : Nat) (S W_nodes : List Nat) : List St :=
  let st0 := List.replicate n St.Y
  let st1 := S.foldl (fun st node => st.set node St.X) st0
  W_nodes.foldl (fun st w => st.set w St.W) st1

/-- Initialization of `can_switch` in `contagion_brd`: all `true`, then `false`
at the nodes of `S` and of `W_nodes`. -/
def initCanSwitch (n : Nat) (S W_nodes : List Nat) : List Bool :=
  let c0 := List.replicate n true
  let c1 := S.foldl (fun c node => c.set node false) c0
  W_nodes.foldl (fun c w => c.set w false) c1

/-- The per-node update of one round of `contagion_brd` (lines 66-82 of
src/main.py), for a node whose current status is `"Y"`: compute the neighbor
ratios and convert to `"X"`, else `"W"`, else stay `"Y"`. -/
def updateNode (G : UndirectedGraph) (q : ℚ) (status : List St) (node : Nat) : St :=
  let neighbors := G.edges_from node
  if neighbors.length = 0 then St.Y
  else
    let X_count := (neighbors.filter fun neigh => decide (status.getD neigh St.Y = St.X)).length
    let W_count := (neighbors.filter fun neigh => decide (status.getD neigh St.Y = St.W)).length
    let ratio_X : ℚ := (X_count : ℚ) / (neighbors.length : ℚ)
    let ratio_W : ℚ := (W_count : ℚ) / (neighbors.length : ℚ)
    if ratio_X ≥ q then St.X
    else if ratio_W ≥ q then St.W
    else St.Y

/-- One synchronous round of the while-loop body: `new_status` is computed
from the snapshot `status`; locked nodes and non-`"Y"` nodes keep their value. -/
def step (G : UndirectedGraph) (q : ℚ) (can_switch : List Bool) (status : List St) : List St :=
  (List.range G.n).map fun node =>
    if can_switch.getD node true = true then
      if status.getD node St.Y = St.Y then updateNode G q status node
      else status.getD node St.Y
    else status.getD node St.Y

/-- The state after `r` rounds of `contagion_brd` on graph `G` with threshold
`q`, spreader seeds `S` and wise seeds `W_nodes` (round 0 = initialization). -/
def roundState (G : UndirectedGraph) (q : ℚ) (S W_nodes : List Nat) (r : Nat) : List St :=
  (step G q (initCanSwitch G.n S W_nodes))^[r] (initStatus G.n S W_nodes)

/-- Number of `"Y"` entries of a status array. -/
def countY (s : List St) : Nat := s.countP fun x => decide (x = St.Y)

lemma step_length (G : UndirectedGraph) (q : ℚ) (c : List Bool) (s : List St) :
    (step G q c s).length = G.n := by
  simp [step]

lemma foldl_set_length {α : Type} (L : List Nat) (v : α) (c : List α) :
    (L.foldl (fun acc x => acc.set x v) c).length = c.length := by
  induction L generalizing c with
  | nil => rfl
  | cons x L ih => simp [List.foldl_cons, ih]

lemma initStatus_length (n : Nat) (S W_nodes : List Nat) :
    (initStatus n S W_nodes).length = n := by
  simp [initStatus, foldl_set_length]

lemma initCanSwitch_length (n : Nat) (S W_nodes : List Nat) :
    (initCanSwitch n S W_nodes).length = n := by
  simp [initCanSwitch, foldl_set_length]

lemma foldl_set_getD_of_notMem {α : Type} (L : List Nat) (v : α) (c : List α) (i : Nat) (d : α)
    (h : i ∉ L) : (L.foldl (fun acc x => acc.set x v) c).getD i d = c.getD i d := by
  induction L generalizing c with
  | nil => rfl
  | cons x L ih =>
    rw [List.foldl_cons, ih (c.set x v) (fun hm => h (List.mem_cons_of_mem _ hm))]
    have hx : x ≠ i := fun he => h (he ▸ List.mem_cons_self x L)
    simp [List.getD, List.getElem?_set_ne hx]

lemma foldl_set_getD_of_mem {α : Type} (L : List Nat) (v : α) (c : List α) (i : Nat) (d : α)
    (h : i ∈ L) (hi : i < c.length) :
    (L.foldl (fun acc x => acc.set x v) c).getD i d = v := by
  induction L generalizing c with
  | nil => cases h
  | cons x L ih =>
    rw [List.foldl_cons]
    by_cases hm : i ∈ L
    · exact ih _ hm (by simpa using hi)
    · have hx : x = i := by
        rcases List.mem_cons.mp h with h1 | h2
        · exact h1.symm
        · exact absurd h2 hm
      subst hx
      rw [foldl_set_getD_of_notMem _ _ _ _ _ hm]
      simp [List.getD, List.getElem?_set_self hi]

lemma set_getD_pair {α : Type} (c : List α) (x : Nat) (v : α) (i : Nat) (d : α) :
    (c.set x v).getD i d = c.getD i d ∨ (c.set x v).getD i d = v := by
  by_cases hx : x = i
  · subst hx
    by_cases hi : x < c.length
    · exact Or.inr (by simp [List.getD, List.getElem?_set_self hi])
    · left
      rw [List.set_eq_of_length_le (Nat.le_of_not_lt hi)]
  · exact Or.inl (by simp [List.getD, List.getElem?_set_ne hx])

lemma foldl_set_getD_pair {α : Type} (L : List Nat) (v : α) (c : List α) (i : Nat) (d : α) :
    (L.foldl (fun acc x => acc.set x v) c).getD i d = c.getD i d ∨
      (L.foldl (fun acc x => acc.set x v) c).getD i d = v := by
  induction L generalizing c with
  | nil => exact Or.inl rfl
  | cons x L ih =>
    rw [List.foldl_cons]
    rcases ih (c.set x v) with h | h
    · rw [h]
      exact set_getD_pair c x v i d
    · exact Or.inr h

lemma getD_replicate_self {α : Type} (n i : Nat) (v : α) : (List.replicate n v).getD i v = v := by
  rcases Nat.lt_or_ge i n with h | h
  · simp [List.getD, List.getElem?_replicate, h]
  · simp [List.getD, List.getElem?_eq_none, (by simpa using h : (List.replicate n v).length ≤ i)]

lemma initStatus_getD_of_mem_W (n : Nat) (S W_nodes : List Nat) (v : Nat) (hv : v < n)
    (hW : v ∈ W_nodes) : (initStatus n S W_nodes).getD v St.Y = St.W := by
  unfold initStatus
  exact foldl_set_getD_of_mem _ _ _ _ _ hW (by simp [foldl_set_length, hv])

lemma initStatus_getD_of_mem_S (n : Nat) (S W_nodes : List Nat) (v : Nat) (hv : v < n)
    (hS : v ∈ S) (hW : v ∉ W_nodes) : (initStatus n S W_nodes).getD v St.Y = St.X := by
  unfold initStatus
  rw [foldl_set_getD_of_notMem _ _ _ _ _ hW]
  exact foldl_set_getD_of_mem _ _ _ _ _ hS (by simp [hv])

lemma initStatus_getD_of_notMem (n : Nat) (S W_nodes : List Nat) (v : Nat)
    (hS : v ∉ S) (hW : v ∉ W_nodes) : (initStatus n S W_nodes).getD v St.Y = St.Y := by
  unfold initStatus
  rw [foldl_set_getD_of_notMem _ _ _ _ _ hW, foldl_set_getD_of_notMem _ _ _ _ _ hS]
  exact getD_replicate_self n v St.Y

lemma initStatus_getD_ne_X_of_notMem_S (n : Nat) (S W_nodes : List Nat) (v : Nat)
    (hS : v ∉ S) : (initStatus n S W_nodes).getD v St.Y ≠ St.X := by
  unfold initStatus
  rcases foldl_set_getD_pair W_nodes St.W
      (S.foldl (fun st node => st.set node St.X) (List.replicate n St.Y)) v St.Y with h | h
  · rw [h, foldl_set_getD_of_notMem _ _ _ _ _ hS, getD_replicate_self]
    exact fun hc => St.noConfusion hc
  · rw [h]
    exact fun hc => St.noConfusion hc

lemma initStatus_getD_ne_W_of_notMem_W (n : Nat) (S W_nodes : List Nat) (v : Nat)
    (hW : v ∉ W_nodes) : (initStatus n S W_nodes).getD v St.Y ≠ St.W := by
  unfold initStatus
  rw [foldl_set_getD_of_notMem _ _ _ _ _ hW]
  rcases foldl_set_getD_pair S St.X (List.replicate n St.Y) v St.Y with h | h
  · rw [h, getD_replicate_self]
    exact fun hc => St.noConfusion hc
  · rw [h]
    exact fun hc => St.noConfusion hc

lemma initCanSwitch_getD_false (n : Nat) (S W_nodes : List Nat) (v : Nat) (hv : v < n)
    (h : v ∈ S ∨ v ∈ W_nodes) : (initCanSwitch n S W_nodes).getD v true = false := by
  unfold initCanSwitch
  rcases h with hS | hW
  · by_cases hW : v ∈ W_nodes
    · exact foldl_set_getD_of_mem _ _ _ _ _ hW (by simp [foldl_set_length, hv])
    · rw [foldl_set_getD_of_notMem _ _ _ _ _ hW]
      exact foldl_set_getD_of_mem _ _ _ _ _ hS (by simp [hv])
  · exact foldl_set_getD_of_mem _ _ _ _ _ hW (by simp [foldl_set_length, hv])

lemma initCanSwitch_getD_true (n : Nat) (S W_nodes : List Nat) (v : Nat)
    (hS : v ∉ S) (hW : v ∉ W_nodes) : (initCanSwitch n S W_nodes).getD v true = true := by
  unfold initCanSwitch
  rw [foldl_set_getD_of_notMem _ _ _ _ _ hW, foldl_set_getD_of_notMem _ _ _ _ _ hS]
  exact getD_replicate_self n v true

lemma step_getD_lt (G : UndirectedGraph) (q : ℚ) (c : List Bool) (s : List St) (i : Nat)
    (hi : i < G.n) :
    (step G q c s).getD i St.Y =
      if c.getD i true = true then
        (if s.getD i St.Y = St.Y then updateNode G q s i else s.getD i St.Y)
      else s.getD i St.Y := by
  simp [step, List.getD, List.getElem?_map, List.getElem?_range hi]

lemma step_getD_ge (G : UndirectedGraph) (q : ℚ) (c : List Bool) (s : List St) (i : Nat)
    (hi : G.n ≤ i) : (step G q c s).getD i St.Y = St.Y := by
  simp [List.getD, List.getElem?_eq_none, (by simp [step_length, hi] : (step G q c s).length ≤ i)]

lemma getD_ge_default (s : List St) (i : Nat) (hi : s.length ≤ i) : s.getD i St.Y = St.Y := by
  simp [List.getD, List.getElem?_eq_none, hi]

lemma step_getD_cases (G : UndirectedGraph) (q : ℚ) (c : List Bool) (s : List St)
    (hlen : s.length = G.n) (i : Nat) :
    (step G q c s).getD i St.Y = s.getD i St.Y ∨
      (s.getD i St.Y = St.Y ∧ (step G q c s).getD i St.Y ≠ St.Y) := by
  rcases Nat.lt_or_ge i G.n with hi | hi
  · rw [step_getD_lt G q c s i hi]
    by_cases hc : c.getD i true = true
    · rw [if_pos hc]
      by_cases hs : s.getD i St.Y = St.Y
      · rw [if_pos hs]
        cases hupd : updateNode G q s i with
        | Y => exact Or.inl hs.symm
        | X => exact Or.inr ⟨hs, by simp [hupd]⟩
        | W => exact Or.inr ⟨hs, by simp [hupd]⟩
      · exact Or.inl (if_neg hs)
    · exact Or.inl (if_neg hc)
  · exact Or.inl ((step_getD_ge G q c s i hi).trans
      (getD_ge_default s i (hlen ▸ hi)).symm)

lemma countY_cons (x : St) (l : List St) :
    countY (x :: l) = countY l + if x = St.Y then 1 else 0 := by
  simp [countY, List.countP_cons]

lemma countY_le_and_lt : ∀ (a b : List St), b.length = a.length →
    (∀ i, b.getD i St.Y = a.getD i St.Y ∨ (a.getD i St.Y = St.Y ∧ b.getD i St.Y ≠ St.Y)) →
    countY b ≤ countY a ∧ (b ≠ a → countY b < countY a) := by
  intro a
  induction a with
  | nil =>
    intro b hlen _
    have hb : b = [] := List.length_eq_zero.mp hlen
    subst hb
    exact ⟨Nat.le_refl _, fun h => absurd rfl h⟩
  | cons x a ih =>
    intro b hlen hpt
    cases b with
    | nil => simp at hlen
    | cons y b =>
      have hsh : ∀ i, b.getD i St.Y = a.getD i St.Y ∨
          (a.getD i St.Y = St.Y ∧ b.getD i St.Y ≠ St.Y) := by
        intro i
        have := hpt (i + 1)
        simpa [List.getD_cons_succ] using this
      obtain ⟨hle, hlt⟩ := ih b (by simpa using hlen) hsh
      have h0 := hpt 0
      simp only [List.getD_cons_zero] at h0
      rcases h0 with he | ⟨hxY, hyne⟩
      · subst he
        rw [countY_cons, countY_cons]
        refine ⟨Nat.add_le_add_right hle _, fun hne => ?_⟩
        have hba : b ≠ a := fun h => hne (by rw [h])
        exact Nat.add_lt_add_right (hlt hba) _
      · rw [countY_cons, countY_cons, hxY, if_pos rfl, if_neg hyne]
        omega

lemma countY_zero_getD (s : List St) (h : countY s = 0) (i : Nat) (hi : i < s.length) :
    s.getD i St.Y ≠ St.Y := by
  have hmem : s.getD i St.Y ∈ s := by
    rw [List.getD_eq_getElem s St.Y hi]
    exact List.getElem_mem hi
  have := List.countP_eq_zero.mp h _ hmem
  simpa using this

lemma step_eq_self_of_countY_zero (G : UndirectedGraph) (q : ℚ) (c : List Bool) (s : List St)
    (hlen : s.length = G.n) (h0 : countY s = 0) : step G q c s = s := by
  apply List.ext_getElem (by rw [step_length, hlen])
  intro i h1 h2
  have hi : i < G.n := by rwa [step_length] at h1
  have hne : s.getD i St.Y ≠ St.Y := countY_zero_getD s h0 i h2
  have : (step G q c s).getD i St.Y = s.getD i St.Y := by
    rw [step_getD_lt G q c s i hi]
    by_cases hc : c.getD i true = true
    · rw [if_pos hc, if_neg hne]
    · rw [if_neg hc]
  rwa [List.getD_eq_getElem _ _ h1, List.getD_eq_getElem _ _ h2] at this

/-- The while-loop of `contagion_brd` (lines 59-83): repeat synchronous rounds
until a round changes nothing. In the source, `changed` is set exactly when
some entry of `new_status` differs from `status`, so the loop guard is
`step status ≠ status`. Termination: every changing round strictly decreases
the number of `"Y"` entries. -/
def contagionLoop (G : UndirectedGraph) (q : ℚ) (can_switch : List Bool) (status : List St)
    (hlen : status.length = G.n) : List St :=
  if h : step G q can_switch status = status then status
  else contagionLoop G q can_switch (step G q can_switch status) (step_length G q can_switch status)
termination_by countY status
decreasing_by
  exact (countY_le_and_lt status (step G q can_switch status)
    (by rw [step_length, hlen]) (step_getD_cases G q can_switch status hlen)).2 h

/-- The diffusion engine `contagion_brd(G, S, q, W_nodes)`: initialize the
status and lock arrays, run the synchronous while-loop to fixpoint, and return
the lists of finally-`"X"` and finally-`"W"` nodes (in ascending index order,
as the Python list comprehensions do). -/
def contagion_brd (G : UndirectedGraph) (S : List Nat) (q : ℚ) (W_nodes : List Nat := []) :
    List Nat × List Nat :=
  let n := G.number_of_nodes
  let final := contagionLoop G q (initCanSwitch n S W_nodes) (initStatus n S W_nodes)
    (initStatus_length n S W_nodes)
  ((List.range n).filter fun node => decide (final.getD node St.Y = St.X),
   (List.range n).filter fun node => decide (final.getD node St.Y = St.W))

lemma contagionLoop_isFix_aux (G : UndirectedGraph) (q : ℚ) (c : List Bool) :
    ∀ (k : Nat) (s : List St) (hlen : s.length = G.n), countY s ≤ k →
      step G q c (contagionLoop G q c s hlen) = contagionLoop G q c s hlen := by
  intro k
  induction k with
  | zero =>
    intro s hlen h0
    have hfix : step G q c s = s :=
      step_eq_self_of_countY_zero G q c s hlen (Nat.le_zero.mp h0)
    rw [contagionLoop, dif_pos hfix]
    exact hfix
  | succ k ih =>
    intro s hlen hk
    rw [contagionLoop]
    by_cases hfix : step G q c s = s
    · rw [dif_pos hfix]
      exact hfix
    · rw [dif_neg hfix]
      apply ih
      have := (countY_le_and_lt s (step G q c s)
        (by rw [step_length, hlen]) (step_getD_cases G q c s hlen)).2 hfix
      omega

lemma contagionLoop_isFix (G : UndirectedGraph) (q : ℚ) (c : List Bool) (s : List St)
    (hlen : s.length = G.n) :
    step G q c (contagionLoop G q c s hlen) = contagionLoop G q c s hlen :=
  contagionLoop_isFix_aux G q c (countY s) s hlen (Nat.le_refl _)

lemma contagionLoop_iterate_aux (G : UndirectedGraph) (q : ℚ) (c : List Bool) :
    ∀ (k : Nat) (s : List St) (hlen : s.length = G.n), countY s ≤ k →
      ∃ m, contagionLoop G q c s hlen = (step G q c)^[m] s := by
  intro k
  induction k with
  | zero =>
    intro s hlen h0
    have hfix : step G q c s = s :=
      step_eq_self_of_countY_zero G q c s hlen (Nat.le_zero.mp h0)
    exact ⟨0, by rw [contagionLoop, dif_pos hfix]; rfl⟩
  | succ k ih =>
    intro s hlen hk
    by_cases hfix : step G q c s = s
    · exact ⟨0, by rw [contagionLoop, dif_pos hfix]; rfl⟩
    · have hlt := (countY_le_and_lt s (step G q c s)
        (by rw [step_length, hlen]) (step_getD_cases G q c s hlen)).2 hfix
      obtain ⟨m, hm⟩ := ih (step G q c s) (step_length G q c s) (by omega)
      refine ⟨m + 1, ?_⟩
      rw [contagionLoop, dif_neg hfix, hm, Function.iterate_succ_apply]

lemma roundState_zero (G : UndirectedGraph) (q : ℚ) (S W_nodes : List Nat) :
    roundState G q S W_nodes 0 = initStatus G.n S W_nodes := rfl

lemma roundState_succ (G : UndirectedGraph) (q : ℚ) (S W_nodes : List Nat) (r : Nat) :
    roundState G q S W_nodes (r + 1) =
      step G q (initCanSwitch G.n S W_nodes) (roundState G q S W_nodes r) :=
  Function.iterate_succ_apply' _ _ _

lemma roundState_length (G : UndirectedGraph) (q : ℚ) (S W_nodes : List Nat) (r : Nat) :
    (roundState G q S W_nodes r).length = G.n := by
  cases r with
  | zero => exact initStatus_length _ _ _
  | succ r => rw [roundState_succ]; exact step_length _ _ _ _

/-- After `n` rounds the synchronous process has reached a fixpoint: a further
round changes nothing (each earlier non-fixpoint round consumed at least one
of the at most `n` entries `"Y"`). -/
lemma roundState_fix_at_n (G : UndirectedGraph) (q : ℚ) (S W_nodes : List Nat) :
    step G q (initCanSwitch G.n S W_nodes) (roundState G q S W_nodes G.n) =
      roundState G q S W_nodes G.n := by
  have key : ∀ k, step G q (initCanSwitch G.n S W_nodes) (roundState G q S W_nodes k) =
      roundState G q S W_nodes k ∨ countY (roundState G q S W_nodes k) + k ≤ G.n := by
    intro k
    induction k with
    | zero =>
      right
      have h1 : countY (roundState G q S W_nodes 0) ≤ (roundState G q S W_nodes 0).length :=
        List.countP_le_length _
      rw [roundState_length] at h1
      omega
    | succ k ih =>
      rcases ih with hfix | hle
      · left
        rw [roundState_succ, hfix]
        exact hfix
      · by_cases hfix : step G q (initCanSwitch G.n S W_nodes) (roundState G q S W_nodes k) =
            roundState G q S W_nodes k
        · left
          rw [roundState_succ, hfix]
          exact hfix
        · right
          have hlt := (countY_le_and_lt (roundState G q S W_nodes k)
            (step G q (initCanSwitch G.n S W_nodes) (roundState G q S W_nodes k))
            (by rw [step_length, roundState_length])
            (step_getD_cases G q _ _ (roundState_length G q S W_nodes k))).2 hfix
          rw [roundState_succ]
          omega
  rcases key G.n with hfix | hle
  · exact hfix
  · exact step_eq_self_of_countY_zero G q _ _ (roundState_length G q S W_nodes G.n) (by omega)

/-- The value computed by the while-loop is exactly the round-`n` state. -/
lemma contagionLoop_eq_roundState (G : UndirectedGraph) (q : ℚ) (S W_nodes : List Nat) :
    contagionLoop G q (initCanSwitch G.n S W_nodes) (initStatus G.n S W_nodes)
      (initStatus_length G.n S W_nodes) = roundState G q S W_nodes G.n := by
  obtain ⟨m, hm⟩ := contagionLoop_iterate_aux G q (initCanSwitch G.n S W_nodes)
    (countY (initStatus G.n S W_nodes)) (initStatus G.n S W_nodes)
    (initStatus_length G.n S W_nodes) (Nat.le_refl _)
  have hfixloop := contagionLoop_isFix G q (initCanSwitch G.n S W_nodes)
    (initStatus G.n S W_nodes) (initStatus_length G.n S W_nodes)
  have hfixn := roundState_fix_at_n G q S W_nodes
  rcases Nat.le_total m G.n with h | h
  · have he : roundState G q S W_nodes G.n =
        (step G q (initCanSwitch G.n S W_nodes))^[G.n - m]
          ((step G q (initCanSwitch G.n S W_nodes))^[m] (initStatus G.n S W_nodes)) := by
      rw [← Function.iterate_add_apply]
      unfold roundState
      congr 1
      omega
    rw [he, ← hm, Function.iterate_fixed (hm ▸ hfixloop)]
  · have he : (step G q (initCanSwitch G.n S W_nodes))^[m] (initStatus G.n S W_nodes) =
        (step G q (initCanSwitch G.n S W_nodes))^[m - G.n] (roundState G q S W_nodes G.n) := by
      unfold roundState
      rw [← Function.iterate_add_apply]
      congr 1
      omega
    rw [hm, he, Function.iterate_fixed hfixn]

/-- The engine's result, re-expressed through the round-`n` state: the returned
lists are the ascending lists of nodes finally `"X"` and finally `"W"`. -/
lemma contagion_brd_eq (G : UndirectedGraph) (S : List Nat) (q : ℚ) (W_nodes : List Nat) :
    contagion_brd G S q W_nodes =
      ((List.range G.n).filter fun node =>
          decide ((roundState G q S W_nodes G.n).getD node St.Y = St.X),
       (List.range G.n).filter fun node =>
          decide ((roundState G q S W_nodes G.n).getD node St.Y = St.W)) := by
  dsimp only [contagion_brd, UndirectedGraph.number_of_nodes]
  rw [contagionLoop_eq_roundState]

lemma ratio_ge_iff (q : ℚ) (c d : Nat) (hd : d ≠ 0) :
    (q ≤ (c : ℚ) / (d : ℚ)) ↔ q.num * (d : Int) ≤ (c : Int) * (q.den : Int) := by
  have hd0 : (0 : ℚ) < (d : ℚ) := by exact_mod_cast Nat.pos_of_ne_zero hd
  have hden : (0 : ℚ) < (q.den : ℚ) := by exact_mod_cast q.den_pos
  rw [le_div_iff hd0]
  conv_lhs => rw [← Rat.num_div_den q]
  rw [div_mul_eq_mul_div, div_le_iff hden]
  constructor
  · intro h
    exact_mod_cast h
  · intro h
    exact_mod_cast h

/-- Integer-arithmetic version of `updateNode`: the ratio comparisons
`X_count / d ≥ q` are replaced by the equivalent `q.num * d ≤ X_count * q.den`.
Used only as a kernel-computable bridge for evaluating concrete runs. -/
def updateNodeI (G : UndirectedGraph) (q : ℚ) (status : List St) (node : Nat) : St :=
  let neighbors := G.edges_from node
  if neighbors.length = 0 then St.Y
  else
    let X_count := (neighbors.filter fun neigh => decide (status.getD neigh St.Y = St.X)).length
    let W_count := (neighbors.filter fun neigh => decide (status.getD neigh St.Y = St.W)).length
    if q.num * (neighbors.length : Int) ≤ (X_count : Int) * (q.den : Int) then St.X
    else if q.num * (neighbors.length : Int) ≤ (W_count : Int) * (q.den : Int) then St.W
    else St.Y

lemma updateNode_eq_I (G : UndirectedGraph) (q : ℚ) (status : List St) (node : Nat) :
    updateNode G q status node = updateNodeI G q status node := by
  unfold updateNode updateNodeI
  by_cases h : (G.edges_from node).length = 0
  · simp [h]
  · simp only [if_neg h, ge_iff_le, ratio_ge_iff _ _ _ h]

/-- Bridge version of `step` using `updateNodeI`. -/
def stepI (G : UndirectedGraph) (q : ℚ) (can_switch : List Bool) (status : List St) : List St :=
  (List.range G.n).map fun node =>
    if can_switch.getD node true = true then
      if status.getD node St.Y = St.Y then updateNodeI G q status node
      else status.getD node St.Y
    else status.getD node St.Y

lemma step_eq_I (G : UndirectedGraph) (q : ℚ) (c : List Bool) (s : List St) :
    step G q c s = stepI G q c s := by
  unfold step stepI
  simp only [updateNode_eq_I]

/-- Bridge version of `roundState` using `stepI`. -/
def roundStateI (G : UndirectedGraph) (q : ℚ) (S W_nodes : List Nat) (r : Nat) : List St :=
  (stepI G q (initCanSwitch G.n S W_nodes))^[r] (initStatus G.n S W_nodes)

lemma roundState_eq_I (G : UndirectedGraph) (q : ℚ) (S W_nodes : List Nat) (r : Nat) :
    roundState G q S W_nodes r = roundStateI G q S W_nodes r := by
  unfold roundState roundStateI
  rw [funext (step_eq_I G q (initCanSwitch G.n S W_nodes))]

/-- Kernel-computable characterization of `contagion_brd`. -/
lemma contagion_brd_eq_I (G : UndirectedGraph) (S : List Nat) (q : ℚ) (W_nodes : List Nat) :
    contagion_brd G S q W_nodes =
      ((List.range G.n).filter fun node =>
          decide ((roundStateI G q S W_nodes G.n).getD node St.Y = St.X),
       (List.range G.n).filter fun node =>
          decide ((roundStateI G q S W_nodes G.n).getD node St.Y = St.W)) := by
  rw [contagion_brd_eq, roundState_eq_I]

/-- The 4-node path graph `0-1, 1-2, 2-3` of the spec's concrete scenario. -/
def pathG : UndirectedGraph :=
  (((UndirectedGraph.mkEmpty 4).add_edge 0 1).add_edge 1 2).add_edge 2 3

/-- A 2-node graph with the single edge `0-1`. -/
def twoG : UndirectedGraph := (UndirectedGraph.mkEmpty 2).add_edge 0 1

/-- A 1-node graph with no edges. -/
def oneG : UndirectedGraph := UndirectedGraph.mkEmpty 1

/-- The degree table computed once per call of `run_experiment` (line 130). -/
def degreesOf (G : UndirectedGraph) : List Nat :=
  (List.range G.n).map fun node => (G.edges_from node).length

/-- The ranking order of `sorted(range(n), key=lambda x: degrees[x], reverse=True)`
with Python's stable sort: `a` precedes `b` iff `a`'s degree is larger, or the
degrees are equal and `a`'s index is not larger (stability on the ascending
input `range(n)`). This relation is total, transitive and antisymmetric, so the
sorted permutation of `range(n)` is unique. -/
def degGE (degrees : List Nat) (a b : Nat) : Prop :=
  degrees.getD b 0 < degrees.getD a 0 ∨ (degrees.getD a 0 = degrees.getD b 0 ∧ a ≤ b)

instance (degrees : List Nat) : DecidableRel (degGE degrees) := fun a b => by
  unfold degGE
  infer_instance

instance (degrees : List Nat) : IsTotal Nat (degGE degrees) :=
  ⟨fun a b => by unfold degGE; omega⟩

instance (degrees : List Nat) : IsTrans Nat (degGE degrees) :=
  ⟨fun a b c hab hbc => by unfold degGE at *; omega⟩

/-- The node list `sorted_nodes` of the `high_degree` branch (line 147). -/
def rankedNodes (G : UndirectedGraph) : List Nat :=
  (List.range G.n).insertionSort (degGE (degreesOf G))

/-- The wise set of the `high_degree` strategy (line 148): filter out nodes in
`S` from the ranked list, keep the first `w`. -/
def highDegreeWise (G : UndirectedGraph) (S : List Nat) (w : Nat) : List Nat :=
  ((rankedNodes G).filter fun node => decide (node ∉ S)).take w

/-- The two `ValueError`s that `run_experiment` can raise. -/
inductive ConfigError where
  | kExceedsNodes (k n : Nat) : ConfigError
  | unknownStrategy : ConfigError
deriving DecidableEq, Repr

/-- The strategy dispatch of the trial loop (lines 140-150): choose the wise
set for one trial, or raise on an unknown strategy name. `randChoice` stands
for the `random.sample` draw of the `random` branch. -/
def selectWise (G : UndirectedGraph) (strategy : String) (w : Nat) (S : List Nat)
    (randChoice : List Nat) : Except ConfigError (List Nat) :=
  match strategy with
  | "none" => Except.ok []
  | "random" => Except.ok randChoice
  | "high_degree" => Except.ok (highDegreeWise G S w)
  | _ => Except.error ConfigError.unknownStrategy

/-- The harness `run_experiment(G, q, k, w, strategy, trials)` (lines 111-155).
The two `random.sample` calls are modelled by the injected oracles `sampleS`
(the spreader seeds of each trial) and `sampleRand` (the wise set drawn by the
`random` strategy in each trial); every other part is deterministic. The body
mirrors the Python trial loop: the `k > n` check and the strategy dispatch sit
inside the loop, and a raise aborts the whole call (`Except.error`). -/
def run_experiment (G : UndirectedGraph) (q : ℚ) (k w : Nat) (strategy : String) (trials : Nat)
    (sampleS sampleRand : Nat → List Nat) : Except ConfigError (List Nat) :=
  (List.range trials).foldlM
    (fun infected_counts t =>
      if k > G.number_of_nodes then Except.error (ConfigError.kExceedsNodes k G.number_of_nodes)
      else
        (selectWise G strategy w (sampleS t) (sampleRand t)).bind
          fun W_nodes =>
            Except.ok (infected_counts ++ [(contagion_brd G (sampleS t) q W_nodes).1.length]))
    []

/-- Number of non-`"Y"` (converted or seeded) entries of a status array. -/
def countNonY (s : List St) : Nat := s.countP fun x => decide (x ≠ St.Y)

lemma countNonY_cons (x : St) (l : List St) :
    countNonY (x :: l) = countNonY l + if x = St.Y then 0 else 1 := by
  unfold countNonY
  rw [List.countP_cons]
  by_cases h : x = St.Y
  · simp [h]
  · simp [h]

lemma countY_add_countNonY (s : List St) : countY s + countNonY s = s.length := by
  induction s with
  | nil => rfl
  | cons x l ih =>
    rw [countY_cons, countNonY_cons, List.length_cons]
    by_cases h : x = St.Y
    · rw [if_pos h, if_pos h]
      omega
    · rw [if_neg h, if_neg h]
      omega

lemma roundState_nonY_persists (G : UndirectedGraph) (q : ℚ) (S W_nodes : List Nat)
    (r v : Nat) (hne : (roundState G q S W_nodes r).getD v St.Y ≠ St.Y) :
    (roundState G q S W_nodes (r + 1)).getD v St.Y = (roundState G q S W_nodes r).getD v St.Y := by
  rw [roundState_succ]
  rcases step_getD_cases G q (initCanSwitch G.n S W_nodes) (roundState G q S W_nodes r)
      (roundState_length G q S W_nodes r) v with h | ⟨hY, _⟩
  · exact h
  · exact absurd hY hne

lemma roundState_getD_locked (G : UndirectedGraph) (q : ℚ) (S W_nodes : List Nat) (v : Nat)
    (hv : v < G.n) (hlock : (initCanSwitch G.n S W_nodes).getD v true = false) (r : Nat) :
    (roundState G q S W_nodes r).getD v St.Y = (initStatus G.n S W_nodes).getD v St.Y := by
  induction r with
  | zero => rfl
  | succ r ih =>
    rw [roundState_succ, step_getD_lt G q _ _ v hv, hlock]
    simpa using ih

/-- C1: monotonicity of the diffusion engine. In the round-by-round state
sequence of `contagion_brd`, once a node's state is `"X"` or `"W"` it is never
changed in any later round, and the count of non-`"Y"` nodes is non-decreasing
from each round to the next. -/
theorem monotonicity_C1 (G : UndirectedGraph) (q : ℚ) (S W_nodes : List Nat) (r v : Nat) :
    ((roundState G q S W_nodes r).getD v St.Y ≠ St.Y →
      (roundState G q S W_nodes (r + 1)).getD v St.Y = (roundState G q S W_nodes r).getD v St.Y)
    ∧ countNonY (roundState G q S W_nodes r) ≤ countNonY (roundState G q S W_nodes (r + 1)) := by
  constructor
  · exact roundState_nonY_persists G q S W_nodes r v
  · have hle := (countY_le_and_lt (roundState G q S W_nodes r)
      (step G q (initCanSwitch G.n S W_nodes) (roundState G q S W_nodes r))
      (by rw [step_length, roundState_length])
      (step_getD_cases G q _ _ (roundState_length G q S W_nodes r))).1
    have ha := countY_add_countNonY (roundState G q S W_nodes r)
    have hb := countY_add_countNonY (roundState G q S W_nodes (r + 1))
    rw [roundState_length] at ha hb
    rw [roundState_succ]
    rw [roundState_succ] at hb
    omega

/-- C1 witness: on the path graph with `q = 1/2`, node 1 is `"X"` after round 1
and keeps that state in round 2. -/
theorem monotonicity_C1_witness :
    ((roundState pathG (mkRat 1 2) [0] [] 1).getD 1 St.Y ≠ St.Y) ∧
      (roundState pathG (mkRat 1 2) [0] [] 2).getD 1 St.Y =
        (roundState pathG (mkRat 1 2) [0] [] 1).getD 1 St.Y := by
  have h1 : (roundState pathG (mkRat 1 2) [0] [] 1).getD 1 St.Y ≠ St.Y := by
    rw [roundState_eq_I]
    decide
  exact ⟨h1, (monotonicity_C1 pathG (mkRat 1 2) [0] [] 1 1).1 h1⟩

/-- C2: the while-loop of `contagion_brd` terminates and reaches a fixpoint in
at most `n` rounds: a round applied to the round-`n` state changes nothing,
and the loop's returned value is exactly the round-`n` state (so the returned
`(Infected, Wise)` lists are the `"X"`- and `"W"`-nodes of that state). -/
theorem termination_C2 (G : UndirectedGraph) (q : ℚ) (S W_nodes : List Nat) :
    step G q (initCanSwitch G.n S W_nodes) (roundState G q S W_nodes G.n) =
      roundState G q S W_nodes G.n
    ∧ contagion_brd G S q W_nodes =
      ((List.range G.n).filter fun node =>
          decide ((roundState G q S W_nodes G.n).getD node St.Y = St.X),
       (List.range G.n).filter fun node =>
          decide ((roundState G q S W_nodes G.n).getD node St.Y = St.W)) :=
  ⟨roundState_fix_at_n G q S W_nodes, contagion_brd_eq G S q W_nodes⟩

/-- C3: concrete scenario. On the 4-node path graph `0-1, 1-2, 2-3` with
`S = [0]`, `q = 1/2` (the spec's `0.5`) and `W = []`, the engine returns
`Infected = [0, 1, 2, 3]` and `Wise = []`; node 1 converts in round 1, node 2
in round 2, node 3 in round 3, and round 4 changes nothing (fixpoint). -/
theorem scenario_C3 :
    contagion_brd pathG [0] (mkRat 1 2) [] = ([0, 1, 2, 3], [])
    ∧ (roundState pathG (mkRat 1 2) [0] [] 0).getD 1 St.Y = St.Y
    ∧ (roundState pathG (mkRat 1 2) [0] [] 1).getD 1 St.Y = St.X
    ∧ (roundState pathG (mkRat 1 2) [0] [] 1).getD 2 St.Y = St.Y
    ∧ (roundState pathG (mkRat 1 2) [0] [] 2).getD 2 St.Y = St.X
    ∧ (roundState pathG (mkRat 1 2) [0] [] 2).getD 3 St.Y = St.Y
    ∧ (roundState pathG (mkRat 1 2) [0] [] 3).getD 3 St.Y = St.X
    ∧ roundState pathG (mkRat 1 2) [0] [] 4 = roundState pathG (mkRat 1 2) [0] [] 3 := by
  refine ⟨?_, ?_, ?_, ?_, ?_, ?_, ?_, ?_⟩
  · rw [contagion_brd_eq_I]
    decide
  · rw [roundState_eq_I]
    decide
  · rw [roundState_eq_I]
    decide
  · rw [roundState_eq_I]
    decide
  · rw [roundState_eq_I]
    decide
  · rw [roundState_eq_I]
    decide
  · rw [roundState_eq_I]
    decide
  · rw [roundState_eq_I, roundState_eq_I]
    decide

/-- C4: seed invariance. Every node of `S` that is not also in `W` keeps state
`"X"` in every round and appears in the final `Infected` list; every node of
`W \ S` keeps state `"W"` in every round and appears in the final `Wise` list
(seed nodes are locked by `can_switch` and never revisited). -/
theorem seed_invariance_C4 (G : UndirectedGraph) (q : ℚ) (S W_nodes : List Nat) :
    (∀ v, v < G.n → v ∈ S → v ∉ W_nodes →
      (∀ r, (roundState G q S W_nodes r).getD v St.Y = St.X) ∧
        v ∈ (contagion_brd G S q W_nodes).1)
    ∧ (∀ v, v < G.n → v ∈ W_nodes → v ∉ S →
      (∀ r, (roundState G q S W_nodes r).getD v St.Y = St.W) ∧
        v ∈ (contagion_brd G S q W_nodes).2) := by
  constructor
  · intro v hv hS hW
    have hlock := initCanSwitch_getD_false G.n S W_nodes v hv (Or.inl hS)
    have hall : ∀ r, (roundState G q S W_nodes r).getD v St.Y = St.X := fun r =>
      (roundState_getD_locked G q S W_nodes v hv hlock r).trans
        (initStatus_getD_of_mem_S G.n S W_nodes v hv hS hW)
    refine ⟨hall, ?_⟩
    rw [contagion_brd_eq]
    exact List.mem_filter.mpr ⟨List.mem_range.mpr hv, by rw [hall G.n]; rfl⟩
  · intro v hv hW _
    have hlock := initCanSwitch_getD_false G.n S W_nodes v hv (Or.inr hW)
    have hall : ∀ r, (roundState G q S W_nodes r).getD v St.Y = St.W := fun r =>
      (roundState_getD_locked G q S W_nodes v hv hlock r).trans
        (initStatus_getD_of_mem_W G.n S W_nodes v hv hW)
    refine ⟨hall, ?_⟩
    rw [contagion_brd_eq]
    exact List.mem_filter.mpr ⟨List.mem_range.mpr hv, by rw [hall G.n]; rfl⟩

/-- C4 witness: on the path graph with seeds `S = [0]`, `W = [3]`, node 0 ends
Infected and node 3 ends Wise. -/
theorem seed_invariance_C4_witness :
    0 ∈ (contagion_brd pathG [0] (mkRat 1 2) [3]).1 ∧
      3 ∈ (contagion_brd pathG [0] (mkRat 1 2) [3]).2 :=
  ⟨((seed_invariance_C4 pathG (mkRat 1 2) [0] [3]).1 0 (by decide) (by decide) (by decide)).2,
   ((seed_invariance_C4 pathG (mkRat 1 2) [0] [3]).2 3 (by decide) (by decide) (by decide)).2⟩

/-- C7: seed-overlap resolution. A node in both `S` and `W` is initialized to
`"W"` (the wise assignment is applied after the spreader assignment), stays
`"W"` in every round, and ends in the final `Wise` list, not in `Infected`. -/
theorem seed_overlap_C7 (G : UndirectedGraph) (q : ℚ) (S W_nodes : List Nat) (v : Nat)
    (hv : v < G.n) (hS : v ∈ S) (hW : v ∈ W_nodes) :
    (roundState G q S W_nodes 0).getD v St.Y = St.W
    ∧ (∀ r, (roundState G q S W_nodes r).getD v St.Y = St.W)
    ∧ v ∈ (contagion_brd G S q W_nodes).2
    ∧ v ∉ (contagion_brd G S q W_nodes).1 := by
  have hlock := initCanSwitch_getD_false G.n S W_nodes v hv (Or.inl hS)
  have hinit := initStatus_getD_of_mem_W G.n S W_nodes v hv hW
  have hall : ∀ r, (roundState G q S W_nodes r).getD v St.Y = St.W := fun r =>
    (roundState_getD_locked G q S W_nodes v hv hlock r).trans hinit
  refine ⟨hall 0, hall, ?_, ?_⟩
  · rw [contagion_brd_eq]
    exact List.mem_filter.mpr ⟨List.mem_range.mpr hv, by rw [hall G.n]; rfl⟩
  · rw [contagion_brd_eq]
    intro hmem
    have hX := of_decide_eq_true (List.mem_filter.mp hmem).2
    rw [hall G.n] at hX
    exact St.noConfusion hX

/-- C7 witness: node 0 seeded as both spreader and wise on the 2-node graph
ends Wise. -/
theorem seed_overlap_C7_witness :
    0 ∈ (contagion_brd twoG [0] (mkRat 1 2) [0]).2 :=
  (seed_overlap_C7 twoG (mkRat 1 2) [0] [0] 0 (by decide) (by decide) (by decide)).2.2.1

/-- C9: determinism of the engine. `contagion_brd` is a pure function of
`(G, q, S, W)`: two calls on identical inputs return identical results. -/
theorem determinism_C9 (G1 G2 : UndirectedGraph) (q1 q2 : ℚ) (S1 S2 W1 W2 : List Nat)
    (hG : G1 = G2) (hq : q1 = q2) (hS : S1 = S2) (hW : W1 = W2) :
    contagion_brd G1 S1 q1 W1 = contagion_brd G2 S2 q2 W2 := by
  subst hG
  subst hq
  subst hS
  subst hW
  rfl

/-- C9 witness: two runs on the path-graph scenario agree. -/
theorem determinism_C9_witness :
    contagion_brd pathG [0] (mkRat 1 2) [] = contagion_brd pathG [0] (mkRat 1 2) [] :=
  determinism_C9 pathG pathG (mkRat 1 2) (mkRat 1 2) [0] [0] [] [] rfl rfl rfl rfl

lemma updateNode_expand (G : UndirectedGraph) (q : ℚ) (s : List St) (node : Nat) :
    updateNode G q s node =
      if (G.edges_from node).length = 0 then St.Y
      else if ((((G.edges_from node).filter fun neigh =>
              decide (s.getD neigh St.Y = St.X)).length : ℚ) /
            ((G.edges_from node).length : ℚ)) ≥ q then St.X
      else if ((((G.edges_from node).filter fun neigh =>
              decide (s.getD neigh St.Y = St.W)).length : ℚ) /
            ((G.edges_from node).length : ℚ)) ≥ q then St.W
      else St.Y := rfl

lemma one_lt_not_ratio_ge (q : ℚ) (c d : Nat) (hq : 1 < q) (hd : d ≠ 0) (hc : c ≤ d) :
    ¬ ((c : ℚ) / (d : ℚ) ≥ q) := by
  have hpos : (0 : ℚ) < (d : ℚ) := by exact_mod_cast Nat.pos_of_ne_zero hd
  have h1 : (c : ℚ) / (d : ℚ) ≤ 1 := by
    rw [div_le_one hpos]
    exact_mod_cast hc
  exact not_le.mpr (lt_of_le_of_lt h1 hq)

lemma updateNode_eq_Y_of_one_lt (G : UndirectedGraph) (q : ℚ) (s : List St) (node : Nat)
    (hq : 1 < q) : updateNode G q s node = St.Y := by
  rw [updateNode_expand]
  by_cases h : (G.edges_from node).length = 0
  · rw [if_pos h]
  · rw [if_neg h, if_neg (one_lt_not_ratio_ge q _ _ hq h (List.length_filter_le _ _)),
      if_neg (one_lt_not_ratio_ge q _ _ hq h (List.length_filter_le _ _))]

lemma updateNode_zero_eq_X (G : UndirectedGraph) (s : List St) (node : Nat)
    (hnb : (G.edges_from node).length ≠ 0) : updateNode G 0 s node = St.X := by
  rw [updateNode_expand, if_neg hnb, if_pos]
  exact div_nonneg (Nat.cast_nonneg _) (Nat.cast_nonneg _)

lemma step_eq_self_of_one_lt (G : UndirectedGraph) (q : ℚ) (c : List Bool) (s : List St)
    (hq : 1 < q) (hlen : s.length = G.n) : step G q c s = s := by
  apply List.ext_getElem (by rw [step_length, hlen])
  intro i h1 h2
  have hi : i < G.n := by rwa [step_length] at h1
  have hgd : (step G q c s).getD i St.Y = s.getD i St.Y := by
    rw [step_getD_lt G q c s i hi]
    by_cases hc : c.getD i true = true
    · rw [if_pos hc]
      by_cases hs : s.getD i St.Y = St.Y
      · rw [if_pos hs, updateNode_eq_Y_of_one_lt G q s i hq, hs]
      · rw [if_neg hs]
    · rw [if_neg hc]
  rwa [List.getD_eq_getElem _ _ h1, List.getD_eq_getElem _ _ h2] at hgd

/-- C10: out-of-range threshold. With `q > 1` no ratio ever reaches `q`, so the
very first round is already a fixpoint, the loop stops after one pass, and the
result is `Infected = S` and `Wise = W` exactly (for in-range, disjoint seed
lists). The threshold is not validated anywhere: the engine runs normally. -/
theorem out_of_range_q_C10 (G : UndirectedGraph) (q : ℚ) (S W_nodes : List Nat)
    (hq : 1 < q) (hdisj : ∀ v, v ∈ S → v ∉ W_nodes)
    (hSlt : ∀ v ∈ S, v < G.n) (hWlt : ∀ v ∈ W_nodes, v < G.n) :
    step G q (initCanSwitch G.n S W_nodes) (initStatus G.n S W_nodes) = initStatus G.n S W_nodes
    ∧ (∀ v, v ∈ (contagion_brd G S q W_nodes).1 ↔ v ∈ S)
    ∧ (∀ v, v ∈ (contagion_brd G S q W_nodes).2 ↔ v ∈ W_nodes) := by
  have hfix := step_eq_self_of_one_lt G q (initCanSwitch G.n S W_nodes)
    (initStatus G.n S W_nodes) hq (initStatus_length G.n S W_nodes)
  have hconst : roundState G q S W_nodes G.n = initStatus G.n S W_nodes :=
    Function.iterate_fixed hfix G.n
  refine ⟨hfix, ?_, ?_⟩
  · intro v
    rw [contagion_brd_eq]
    constructor
    · intro hmem
      have hX := of_decide_eq_true (List.mem_filter.mp hmem).2
      rw [hconst] at hX
      by_contra hvS
      exact initStatus_getD_ne_X_of_notMem_S G.n S W_nodes v hvS hX
    · intro hvS
      refine List.mem_filter.mpr ⟨List.mem_range.mpr (hSlt v hvS), ?_⟩
      rw [hconst, initStatus_getD_of_mem_S G.n S W_nodes v (hSlt v hvS) hvS (hdisj v hvS)]
      rfl
  · intro v
    rw [contagion_brd_eq]
    constructor
    · intro hmem
      have hW := of_decide_eq_true (List.mem_filter.mp hmem).2
      rw [hconst] at hW
      by_contra hvW
      exact initStatus_getD_ne_W_of_notMem_W G.n S W_nodes v hvW hW
    · intro hvW
      refine List.mem_filter.mpr ⟨List.mem_range.mpr (hWlt v hvW), ?_⟩
      rw [hconst, initStatus_getD_of_mem_W G.n S W_nodes v (hWlt v hvW) hvW]
      rfl

/-- C10 witness: with `q = 2` on the 2-node graph, `S = [0]`, `W = [1]`, the
final Infected set is exactly `S` and the final Wise set exactly `W`. -/
theorem out_of_range_q_C10_witness :
    (0 ∈ (contagion_brd twoG [0] 2 [1]).1 ↔ 0 ∈ [0])
    ∧ (1 ∈ (contagion_brd twoG [0] 2 [1]).2 ↔ 1 ∈ [1]) :=
  ⟨(out_of_range_q_C10 twoG 2 [0] [1] (by decide) (by decide) (by decide) (by decide)).2.1 0,
   (out_of_range_q_C10 twoG 2 [0] [1] (by decide) (by decide) (by decide) (by decide)).2.2 1⟩

/-- C5 counterexample: the claim says that with `q = 0` an unlocked node with
at least one neighbor converts to whichever of Spreader/Wise is checked first
whose neighbor category is non-empty. On the 2-node graph `0-1` with `S = []`,
`W = [0]`, `q = 0`, node 1's Spreader neighbor category is empty (conjunct 2)
and its Wise category is non-empty (conjunct 3), so the claim predicts node 1
becomes Wise; the code instead returns `Infected = [1]`, `Wise = [0]`
(conjunct 1), because `ratio_X = 0 ≥ 0` already triggers the Spreader branch. -/
theorem threshold_zero_C5_counterexample :
    contagion_brd twoG [] 0 [0] = ([1], [0])
    ∧ (twoG.edges_from 1).filter
        (fun neigh => decide ((initStatus twoG.n [] [0]).getD neigh St.Y = St.X)) = []
    ∧ (twoG.edges_from 1).filter
        (fun neigh => decide ((initStatus twoG.n [] [0]).getD neigh St.Y = St.W)) = [0] := by
  refine ⟨?_, by decide, by decide⟩
  rw [contagion_brd_eq_I]
  decide

/-- C5 (amended): with `q = 0`, every unlocked node with at least one neighbor
converts to Spreader in round 1, regardless of the states of its neighbors
(`ratio_X ≥ 0` always holds); in particular a node meeting both thresholds
becomes Spreader, i.e. Spreader wins ties. -/
theorem threshold_zero_C5 (G : UndirectedGraph) (S W_nodes : List Nat) (v : Nat)
    (hv : v < G.n) (hS : v ∉ S) (hW : v ∉ W_nodes)
    (hnb : (G.edges_from v).length ≠ 0) :
    (roundState G 0 S W_nodes 1).getD v St.Y = St.X := by
  rw [show (1 : Nat) = 0 + 1 from rfl, roundState_succ, step_getD_lt _ _ _ _ v hv,
    if_pos (initCanSwitch_getD_true G.n S W_nodes v hS hW), roundState_zero,
    if_pos (initStatus_getD_of_notMem G.n S W_nodes v hS hW)]
  exact updateNode_zero_eq_X G _ v hnb

/-- C5 witness: node 1 of the 2-node graph (unlocked, one neighbor) is `"X"`
after round 1 when `q = 0`. -/
theorem threshold_zero_C5_witness :
    (1 < twoG.n ∧ 1 ∉ ([] : List Nat) ∧ 1 ∉ [0] ∧ (twoG.edges_from 1).length ≠ 0)
    ∧ (roundState twoG 0 [] [0] 1).getD 1 St.Y = St.X :=
  ⟨by decide, threshold_zero_C5 twoG [] [0] 1 (by decide) (by decide) (by decide) (by decide)⟩

lemma selectWise_none (G : UndirectedGraph) (w : Nat) (S r : List Nat) :
    selectWise G "none" w S r = Except.ok [] := rfl

lemma selectWise_high_degree (G : UndirectedGraph) (w : Nat) (S r : List Nat) :
    selectWise G "high_degree" w S r = Except.ok (highDegreeWise G S w) := rfl

lemma selectWise_unknown (G : UndirectedGraph) (strategy : String) (w : Nat) (S r : List Nat)
    (hn : strategy ≠ "none") (hr : strategy ≠ "random") (hh : strategy ≠ "high_degree") :
    selectWise G strategy w S r = Except.error ConfigError.unknownStrategy := by
  unfold selectWise
  split
  · exact absurd rfl hn
  · exact absurd rfl hr
  · exact absurd rfl hh
  · rfl

lemma except_ok_bind {ε α β : Type} (a : α) (f : α → Except ε β) :
    (Except.ok a : Except ε α).bind f = f a := rfl

/-- C6 counterexample: the claim says all four configuration errors
(`k > n`, unknown strategy, `trials < 1`, `q` outside `[0,1]`) are detected
before any simulation work and the configuration rejected with an error.
Conjunct 1: `q = 2` is outside `[0,1]` yet the call succeeds and returns a
result list. Conjunct 2: `trials = 0` with `k = 5 > n = 1` AND an unknown
strategy name still succeeds, returning an empty outcome list — none of the
three errors present is detected. -/
theorem config_errors_C6_counterexample :
    run_experiment oneG 2 0 0 "none" 1 (fun _ => []) (fun _ => []) = Except.ok [0]
    ∧ run_experiment oneG (mkRat 1 2) 5 0 "bogus" 0 (fun _ => []) (fun _ => []) =
        Except.ok [] := by
  constructor
  · have hc : (contagion_brd oneG [] 2 []).1.length = 0 := by
      rw [contagion_brd_eq_I]
      decide
    unfold run_experiment
    rw [show List.range 1 = [0] from rfl, List.foldlM_cons]
    dsimp only
    rw [if_neg (by decide : ¬ (0 > oneG.number_of_nodes)), selectWise_none, except_ok_bind]
    rw [hc]
    rfl
  · rfl

/-- C6 (amended): `run_experiment` eagerly detects only two of the four
configuration errors — `k` exceeding the node count and an unknown strategy
name — raising before any trial's diffusion run, and only when `trials ≥ 1`:
the checks sit inside the trial loop, so with `trials < 1` nothing is
validated and an empty outcome list is returned; `trials < 1` and `q` outside
`[0,1]` are never detected (see the counterexample). -/
theorem config_errors_C6 (G : UndirectedGraph) (q : ℚ) (k w : Nat) (strategy : String)
    (trials : Nat) (sampleS sampleRand : Nat → List Nat) (ht : 1 ≤ trials) :
    (G.n < k → run_experiment G q k w strategy trials sampleS sampleRand =
        Except.error (ConfigError.kExceedsNodes k G.n))
    ∧ (k ≤ G.n → strategy ≠ "none" → strategy ≠ "random" → strategy ≠ "high_degree" →
        run_experiment G q k w strategy trials sampleS sampleRand =
          Except.error ConfigError.unknownStrategy) := by
  cases trials with
  | zero => exact absurd ht (by omega)
  | succ m =>
    constructor
    · intro hk
      unfold run_experiment
      rw [List.range_succ_eq_map, List.foldlM_cons]
      rw [if_pos (show k > G.number_of_nodes from hk)]
      rfl
    · intro hk hn hr hh
      unfold run_experiment
      rw [List.range_succ_eq_map, List.foldlM_cons]
      rw [if_neg (show ¬ k > G.number_of_nodes from not_lt.mpr hk),
        selectWise_unknown G strategy w _ _ hn hr hh]
      rfl

/-- C6 witness: on the 1-node graph with `k = 5 > 1` and one trial the call
errors with `kExceedsNodes`; with `k = 0` and strategy `"bogus"` it errors
with `unknownStrategy`. -/
theorem config_errors_C6_witness :
    run_experiment oneG (mkRat 1 2) 5 0 "none" 1 (fun _ => []) (fun _ => []) =
        Except.error (ConfigError.kExceedsNodes 5 oneG.n)
    ∧ run_experiment oneG (mkRat 1 2) 0 0 "bogus" 1 (fun _ => []) (fun _ => []) =
        Except.error ConfigError.unknownStrategy :=
  ⟨(config_errors_C6 oneG (mkRat 1 2) 5 0 "none" 1 (fun _ => []) (fun _ => [])
      (by decide)).1 (by decide),
   (config_errors_C6 oneG (mkRat 1 2) 0 0 "bogus" 1 (fun _ => []) (fun _ => [])
      (by decide)).2 (by decide) (by decide) (by decide) (by decide)⟩

/-- C8: high-degree strategy. The ranking used by the `high_degree` branch is
a permutation of `range n` sorted by `degGE` (degree descending, ties broken
by ascending node index); the chosen wise set is the first `w` nodes of that
ranking after excluding nodes of `S` (so always a subset of the `w`
highest-degree non-spreader nodes); `run_experiment` hands exactly this set to
the engine; and when `S` holds `k` distinct in-range nodes and `w ≤ n - k`,
the chosen set has exactly `w` nodes. -/
theorem high_degree_C8 (G : UndirectedGraph) (S : List Nat) (k w : Nat) :
    (rankedNodes G).Perm (List.range G.n)
    ∧ List.Sorted (degGE (degreesOf G)) (rankedNodes G)
    ∧ highDegreeWise G S w = ((rankedNodes G).filter fun node => decide (node ∉ S)).take w
    ∧ (∀ (q : ℚ) (sampleS sampleRand : Nat → List Nat), k ≤ G.n →
        run_experiment G q k w "high_degree" 1 sampleS sampleRand =
          Except.ok [(contagion_brd G (sampleS 0) q (highDegreeWise G (sampleS 0) w)).1.length])
    ∧ (S.Nodup → (∀ s ∈ S, s < G.n) → S.length = k → w ≤ G.n - k →
        (highDegreeWise G S w).length = w) := by
  refine ⟨List.perm_insertionSort _ _, List.sorted_insertionSort _ _, rfl, ?_, ?_⟩
  · intro q sampleS sampleRand hk
    unfold run_experiment
    rw [show List.range 1 = [0] from rfl, List.foldlM_cons]
    rw [if_neg (show ¬ k > G.number_of_nodes from not_lt.mpr hk), selectWise_high_degree,
      except_ok_bind]
    rfl
  · intro hnd hlt hlen hw
    unfold highDegreeWise
    rw [List.length_take]
    have hperm := List.perm_insertionSort (degGE (degreesOf G)) (List.range G.n)
    have hpf : ((rankedNodes G).filter fun node => decide (node ∉ S)).length =
        ((List.range G.n).filter fun node => decide (node ∉ S)).length := by
      unfold rankedNodes
      exact (hperm.filter _).length_eq
    have hsplit := List.length_eq_length_filter_add (l := List.range G.n)
      (fun node => decide (node ∉ S))
    have hcongr : (List.range G.n).filter (fun x => !(decide (x ∉ S))) =
        (List.range G.n).filter (fun x => decide (x ∈ S)) :=
      List.filter_congr (fun x _ => by simp)
    have hpermS : ((List.range G.n).filter fun x => decide (x ∈ S)).Perm S := by
      rw [List.perm_ext_iff_of_nodup ((List.nodup_range G.n).filter _) hnd]
      intro a
      rw [List.mem_filter, List.mem_range]
      constructor
      · intro h
        exact of_decide_eq_true h.2
      · intro h
        exact ⟨hlt a h, decide_eq_true h⟩
    have hlenS := hpermS.length_eq
    rw [List.length_range, hcongr] at hsplit
    rw [hpf]
    omega

/-- C8 witness: on the path graph with `S = [0]`, `k = 1`, `w = 2 ≤ 4 - 1`, the
high-degree wise set has exactly 2 nodes. -/
theorem high_degree_C8_witness :
    (highDegreeWise pathG [0] 2).length = 2 :=
  (high_degree_C8 pathG [0] 1 2).2.2.2.2 (by decide) (by decide) (by decide) (by decide)
